import Mathlib

/-!
# kwtype: the text encoder of `src/main.cpp`

A shallow embedding of `KWtype::keyPress`, `KWtype::keyRelease`, `KWtype::sendKey`,
`sleep` and `KWtype::handleText`, followed by theorems about the key sequences they emit.

The calls that leave the process (`requestKeyboardKeyPress`, `requestKeyboardKeyRelease`,
`flush`, `sleep_for`) are recorded, in call order, in a trace of `Event`s.
-/

namespace Kwtype

/-! ## Data model -/

/-- One observable call made by the encoder: `requestKeyboardKeyPress(code)`,
`requestKeyboardKeyRelease(code)`, `m_connectionThreadObject->flush()` and
`sleep(ms)`. -/
inductive Event where
  | Press (code : Nat)
  | Release (code : Nat)
  | Flush
  | Sleep (ms : Nat)
  deriving DecidableEq, Repr

/-- Modelled from the spec: the result type of `Xkb::keycodeFromKeysym`, declared in `xkb.h`
(not part of the sources at hand). `main.cpp` reads its two fields `code` and `level`;
the spec calls them the physical key code and the modifier level, both unsigned. -/
structure Keycode where
  code : Nat
  level : Nat
  deriving DecidableEq, Repr

/-- Modelled from the spec: the keymap resolver (`Xkb::self()` together with libxkbcommon).
`utf32ToKeysym` stands for `xkb_utf32_to_keysym` (layout independent, returns
`XKB_KEY_NoSymbol` when the codepoint has no keysym) and `keycodeFromKeysym` for
`Xkb::keycodeFromKeysym` (the lookup in the active layout, absent when the layout does not
hold the keysym). Both are parameters of the encoder. -/
structure Xkb where
  utf32ToKeysym : Nat → Nat
  keycodeFromKeysym : Nat → Option Keycode

/-- Modelled from the spec: the run parameters of `KWtype`, declared in `main.h` (not part of
the sources at hand) and set by `main` from `--no-flush`, `--key-delay`, `--key-hold`. -/
structure KWtype where
  noFlush : Bool
  keyDelay : Nat
  keyHold : Nat
  deriving DecidableEq, Repr

/-- Value of `XKB_KEY_NoSymbol` (xkbcommon-keysyms.h). -/
def XKB_KEY_NoSymbol : Nat := 0

/-- Value of `KEY_LEFTCTRL` (linux/input-event-codes.h). -/
def KEY_LEFTCTRL : Nat := 29
/-- Value of `KEY_LEFTSHIFT` (linux/input-event-codes.h). -/
def KEY_LEFTSHIFT : Nat := 42
/-- Value of `KEY_U` (linux/input-event-codes.h). -/
def KEY_U : Nat := 22
/-- Value of `KEY_SPACE` (linux/input-event-codes.h). -/
def KEY_SPACE : Nat := 57
/-- Value of `KEY_RIGHTALT` (linux/input-event-codes.h). -/
def KEY_RIGHTALT : Nat := 100

/-- What a run of `handleText` has done so far: the calls it made, and the local `ret`. -/
structure State where
  trace : List Event
  ret : Int
  deriving DecidableEq, Repr

/-- The one way `handleText` can leave defined behaviour: `keycode->code` (line 146) read
through an empty optional. -/
inductive Fault where
  | absentMappingAccess
  deriving DecidableEq, Repr

/-! ## Operations -/

/-- Embeds `KWtype::keyPress` (lines 89-92). -/
def keyPress (s : State) (keyCode : Nat) : State :=
  { s with trace := s.trace ++ [Event.Press keyCode] }

/-- Embeds `KWtype::keyRelease` (lines 94-97). -/
def keyRelease (s : State) (keyCode : Nat) : State :=
  { s with trace := s.trace ++ [Event.Release keyCode] }

/-- The call `m_connectionThreadObject->flush()`. -/
def flush (s : State) : State :=
  { s with trace := s.trace ++ [Event.Flush] }

/-- The free function `sleep` (lines 187-190). -/
def sleep (s : State) (ms : Nat) : State :=
  { s with trace := s.trace ++ [Event.Sleep ms] }

/-- Embeds `KWtype::sendKey` (lines 99-110). -/
def sendKey (w : KWtype) (s : State) (keyCode : Nat) : State :=
  let s := keyPress s keyCode
  let s := if !w.noFlush then flush s else s
  let s := sleep s w.keyHold
  let s := keyRelease s keyCode
  if !w.noFlush then flush s else s

/-- The string `std::format("{:x}", ch)` of line 142: lowercase hexadecimal, most significant
digit first, no padding. -/
def ch_hex (ch : Nat) : List Char :=
  Nat.toDigits 16 ch

/-- The loop over `ch_hex` of lines 143-147. The mapping of a digit is dereferenced without a
test; on an absent mapping the run is a `Fault`. Only `code` of the mapping is used. -/
def sendHexDigits (w : KWtype) (xkb : Xkb) : List Char → State → Except Fault State
  | [], s => .ok s
  | ch :: rest, s =>
    let keysym := xkb.utf32ToKeysym ch.toNat
    match xkb.keycodeFromKeysym keysym with
    | none => .error Fault.absentMappingAccess
    | some keycode => sendHexDigits w xkb rest (sendKey w s keycode.code)

/-- The body of the inner loop of `handleText` (lines 124-180) for the character `ch` at
position `chIdx` of string number `stringIdx`. -/
def handleTextChar (w : KWtype) (xkb : Xkb) (stringIdx stringFinalIdx chIdx chFinalIdx : Int)
    (ch : Nat) (s : State) : Except Fault State :=
  let keysym := xkb.utf32ToKeysym ch
  if keysym = XKB_KEY_NoSymbol then
    -- lines 128-132: ret = 2; continue
    .ok { s with ret := 2 }
  else
    match xkb.keycodeFromKeysym keysym with
    | none =>
      -- lines 135-150
      let s := keyPress s KEY_LEFTCTRL
      let s := keyPress s KEY_LEFTSHIFT
      let s := sendKey w s KEY_U
      let s := keyRelease s KEY_LEFTCTRL
      let s := keyRelease s KEY_LEFTSHIFT
      match sendHexDigits w xkb (ch_hex ch) s with
      | .error e => .error e
      | .ok s => .ok (sendKey w s KEY_SPACE)
    | some keycode =>
      -- lines 152-177
      let s :=
        match keycode.level with
        | 0 => sendKey w s keycode.code
        | 1 =>
          let s := keyPress s KEY_LEFTSHIFT
          let s := sendKey w s keycode.code
          keyRelease s KEY_LEFTSHIFT
        | 2 =>
          let s := keyPress s KEY_RIGHTALT
          let s := sendKey w s keycode.code
          keyRelease s KEY_RIGHTALT
        | 3 =>
          let s := keyPress s KEY_LEFTSHIFT
          let s := keyPress s KEY_RIGHTALT
          let s := sendKey w s keycode.code
          let s := keyRelease s KEY_LEFTSHIFT
          keyRelease s KEY_RIGHTALT
        | _ => { s with ret := 2 }
      -- lines 178-180
      let s :=
        if w.keyDelay ≠ 0 ∧ (stringIdx ≠ stringFinalIdx ∨ chIdx ≠ chFinalIdx) then
          sleep s w.keyDelay
        else s
      .ok s

/-- The inner loop of `handleText` (lines 123-181) from position `chIdx` on. -/
def handleTextChars (w : KWtype) (xkb : Xkb) (stringIdx stringFinalIdx chFinalIdx : Int) :
    List Nat → Int → State → Except Fault State
  | [], _, s => .ok s
  | ch :: rest, chIdx, s =>
    match handleTextChar w xkb stringIdx stringFinalIdx chIdx chFinalIdx ch s with
    | .error e => .error e
    | .ok s => handleTextChars w xkb stringIdx stringFinalIdx chFinalIdx rest (chIdx + 1) s

/-- The outer loop of `handleText` (lines 118-182) from string number `stringIdx` on. Each
string is given as the result of `toUcs4`. -/
def handleTextStrings (w : KWtype) (xkb : Xkb) (stringFinalIdx : Int) :
    List (List Nat) → Int → State → Except Fault State
  | [], _, s => .ok s
  | ucs4String :: rest, stringIdx, s =>
    let chFinalIdx : Int := (ucs4String.length : Int) - 1
    match handleTextChars w xkb stringIdx stringFinalIdx chFinalIdx ucs4String 0 s with
    | .error e => .error e
    | .ok s => handleTextStrings w xkb stringFinalIdx rest (stringIdx + 1) s

/-- Embeds `KWtype::handleText` (lines 112-185): the final state holds the calls made and the
returned `ret`. -/
def handleText (w : KWtype) (xkb : Xkb) (text : List (List Nat)) : Except Fault State :=
  let ret : Int := 0
  let stringFinalIdx : Int := (text.length : Int) - 1
  handleTextStrings w xkb stringFinalIdx text 0 { trace := [], ret := ret }

/-! ## Vocabulary of the claims -/

/-- The press and release events of a trace. -/
def pressRelease (tr : List Event) : List Event :=
  tr.filter fun e =>
    match e with
    | Event.Press _ => true
    | Event.Release _ => true
    | _ => false

/-- The press, release and flush events of a trace (everything but the sleeps). -/
def keyEvents (tr : List Event) : List Event :=
  tr.filter fun e =>
    match e with
    | Event.Sleep _ => false
    | _ => true

/-- The character fails resolution: it has no keysym, or its keysym is mapped at a level
of 4 or more. -/
def failsResolution (xkb : Xkb) (ch : Nat) : Bool :=
  xkb.utf32ToKeysym ch == XKB_KEY_NoSymbol ||
    match xkb.keycodeFromKeysym (xkb.utf32ToKeysym ch) with
    | some keycode => decide (4 ≤ keycode.level)
    | none => false

/-- The character takes the compose fallback: it has a keysym that the layout does not map. -/
def takesFallback (xkb : Xkb) (ch : Nat) : Bool :=
  xkb.utf32ToKeysym ch != XKB_KEY_NoSymbol &&
    (xkb.keycodeFromKeysym (xkb.utf32ToKeysym ch)).isNone

/-- The layout maps the hex digit `c`. -/
def digitMapped (xkb : Xkb) (c : Char) : Bool :=
  (xkb.keycodeFromKeysym (xkb.utf32ToKeysym c.toNat)).isSome

/-- The hex digits needed by the fallback are mapped: every digit of every character of the
text that takes the fallback has a mapping. -/
def hexDigitsMapped (xkb : Xkb) (text : List (List Nat)) : Prop :=
  ∀ ch ∈ text.flatten, takesFallback xkb ch = true → ∀ c ∈ ch_hex ch, digitMapped xkb c = true

instance (xkb : Xkb) (text : List (List Nat)) : Decidable (hexDigitsMapped xkb text) := by
  unfold hexDigitsMapped
  infer_instance

/-- Pairing of the presses and releases of the code `k`, read from left to right with `n`
presses of `k` still open: a release closes the latest open press and is refused when none
is open. -/
def pairDepth (k : Nat) : Nat → List Event → Option Nat
  | n, [] => some n
  | n, Event.Press c :: rest => pairDepth k (if c = k then n + 1 else n) rest
  | n, Event.Release c :: rest =>
    if c = k then
      if n = 0 then none else pairDepth k (n - 1) rest
    else pairDepth k n rest
  | n, Event.Flush :: rest => pairDepth k n rest
  | n, Event.Sleep _ :: rest => pairDepth k n rest

/-- Every press in the trace is paired with exactly one later release of the same code, and
every release with an earlier press. -/
def Paired (tr : List Event) : Prop :=
  ∀ k, pairDepth k 0 tr = some 0

/-- The set of keys held down after the trace, starting from `held`. -/
def heldAfter : List Nat → List Event → List Nat
  | held, [] => held
  | held, Event.Press c :: rest => heldAfter (if c ∈ held then held else c :: held) rest
  | held, Event.Release c :: rest => heldAfter (held.filter (fun k => k ≠ c)) rest
  | held, Event.Flush :: rest => heldAfter held rest
  | held, Event.Sleep _ :: rest => heldAfter held rest

/-- The set of keys held down after the trace, starting with no key held. -/
def heldKeys (tr : List Event) : List Nat :=
  heldAfter [] tr

/-- The press and release events of a run and its result, when the run completes. -/
def emittedKeys (r : Except Fault State) : Option (List Event × Int) :=
  match r with
  | .ok s => some (pressRelease s.trace, s.ret)
  | .error _ => none

/-- What is required of a run: `R` of the final state when it completes, `F` when it
faults. -/
def outcome (F : Prop) (R : State → Prop) : Except Fault State → Prop
  | .error _ => F
  | .ok s => R s

/-- The sixteen lowercase hexadecimal digits. -/
def hexDigitChars : List Char :=
  "0123456789abcdef".toList

/-- A block of events that leaves the pairing of every code as it found it: read from any
number of open presses, it closes every press it opens and no other. -/
def Neutral (tr : List Event) : Prop :=
  ∀ k n, pairDepth k n tr = some n

/-- The press, release and flush events of a run; a fault stays a fault. -/
def runKeys (r : Except Fault State) : Except Fault (List Event) :=
  match r with
  | .ok s => .ok (keyEvents s.trace)
  | .error e => .error e

/-- The events `f ch` of the characters of a list, one after the other in the order of the
list; a fault of one of them is a fault of the whole. -/
def concatKeys (f : Nat → Except Fault (List Event)) : List Nat → Except Fault (List Event)
  | [] => .ok []
  | ch :: rest =>
    match f ch with
    | .error e => .error e
    | .ok evs =>
      match concatKeys f rest with
      | .error e => .error e
      | .ok more => .ok (evs ++ more)

/-! ## Example layouts -/

/-- A layout for the examples: the keysym of a codepoint is the codepoint itself, except
that U+20AC has none; the lowercase letters a-f and the digits sit at level 0 on their
Linux key codes, `A` is at level 1, `@` at level 2, `X` at level 3 and `~` at level 4. -/
def exampleXkb : Xkb where
  utf32ToKeysym := fun ch => if ch = 0x20AC then XKB_KEY_NoSymbol else ch
  keycodeFromKeysym := fun keysym =>
    if keysym = 0x30 then some ⟨11, 0⟩
    else if 0x31 ≤ keysym ∧ keysym ≤ 0x39 then some ⟨keysym - 0x2F, 0⟩
    else if keysym = 0x61 then some ⟨30, 0⟩
    else if keysym = 0x62 then some ⟨48, 0⟩
    else if keysym = 0x63 then some ⟨46, 0⟩
    else if keysym = 0x64 then some ⟨32, 0⟩
    else if keysym = 0x65 then some ⟨18, 0⟩
    else if keysym = 0x66 then some ⟨33, 0⟩
    else if keysym = 0x41 then some ⟨30, 1⟩
    else if keysym = 0x40 then some ⟨3, 2⟩
    else if keysym = 0x58 then some ⟨45, 3⟩
    else if keysym = 0x7E then some ⟨41, 4⟩
    else none

/-- The example layout with the digit `1` moved to level 1, as on a French keyboard. -/
def shiftedDigitXkb : Xkb where
  utf32ToKeysym := exampleXkb.utf32ToKeysym
  keycodeFromKeysym := fun keysym =>
    if keysym = 0x31 then some ⟨2, 1⟩ else exampleXkb.keycodeFromKeysym keysym

/-- The example layout without the letter `f`. -/
def noFXkb : Xkb where
  utf32ToKeysym := exampleXkb.utf32ToKeysym
  keycodeFromKeysym := fun keysym =>
    if keysym = 0x66 then none else exampleXkb.keycodeFromKeysym keysym

/-- Default run parameters: flushing on, no delay, no hold. -/
def defaultConfig : KWtype := { noFlush := false, keyDelay := 0, keyHold := 0 }

/-- The default run parameters with a delay of 50 ms between keys. -/
def delay50Config : KWtype := { noFlush := false, keyDelay := 50, keyHold := 0 }

/-! ## Basic facts about the operations -/

theorem pressRelease_append (a b : List Event) :
    pressRelease (a ++ b) = pressRelease a ++ pressRelease b := by
  simp [pressRelease]

theorem keyEvents_append (a b : List Event) :
    keyEvents (a ++ b) = keyEvents a ++ keyEvents b := by
  simp [keyEvents]

theorem sendKey_ret (w : KWtype) (s : State) (keyCode : Nat) :
    (sendKey w s keyCode).ret = s.ret := by
  cases hf : w.noFlush <;> simp [sendKey, keyPress, keyRelease, flush, sleep, hf]

theorem sendKey_trace (w : KWtype) (s : State) (keyCode : Nat) :
    (sendKey w s keyCode).trace =
      s.trace ++ (if w.noFlush then
        [Event.Press keyCode, Event.Sleep w.keyHold, Event.Release keyCode]
      else
        [Event.Press keyCode, Event.Flush, Event.Sleep w.keyHold, Event.Release keyCode,
          Event.Flush]) := by
  cases hf : w.noFlush <;> simp [sendKey, keyPress, keyRelease, flush, sleep, hf]

theorem sendKey_pressRelease (w : KWtype) (s : State) (keyCode : Nat) :
    pressRelease (sendKey w s keyCode).trace =
      pressRelease s.trace ++ [Event.Press keyCode, Event.Release keyCode] := by
  rw [sendKey_trace]
  cases hf : w.noFlush <;> simp [pressRelease]

/-- A text of one character runs the loop body once, as the last character of the text. -/
theorem handleText_singleton (w : KWtype) (xkb : Xkb) (ch : Nat) :
    handleText w xkb [[ch]] = handleTextChar w xkb 0 0 0 0 ch { trace := [], ret := 0 } := by
  simp only [handleText, handleTextStrings, handleTextChars, List.length_singleton,
    Nat.cast_one, sub_self]
  cases handleTextChar w xkb 0 0 0 0 ch { trace := [], ret := 0 } <;> rfl

/-- The digit loop of the fallback, when every digit is mapped: one bare press and release
of the mapped code per digit, whatever the level of the mapping. -/
theorem sendHexDigits_pressRelease (w : KWtype) (xkb : Xkb) (d lvl : Char → Nat) :
    ∀ (digits : List Char) (s : State),
      (∀ c ∈ digits, xkb.keycodeFromKeysym (xkb.utf32ToKeysym c.toNat) = some ⟨d c, lvl c⟩) →
      ∃ s1, sendHexDigits w xkb digits s = .ok s1 ∧ s1.ret = s.ret ∧
        pressRelease s1.trace = pressRelease s.trace ++
          digits.flatMap (fun c => [Event.Press (d c), Event.Release (d c)]) := by
  intro digits
  induction digits with
  | nil => intro s _; exact ⟨s, rfl, rfl, by simp⟩
  | cons c rest ih =>
    intro s h
    have hc := h c (List.mem_cons_self _ _)
    obtain ⟨s1, h1, h2, h3⟩ := ih (sendKey w s (d c)) (fun x hx => h x (List.mem_cons_of_mem _ hx))
    refine ⟨s1, ?_, ?_, ?_⟩
    · simp [sendHexDigits, hc, h1]
    · rw [h2, sendKey_ret]
    · rw [h3, sendKey_pressRelease]; simp

/-! ## C1: the direct path -/

/-- C1 (amended): for a codepoint with a keysym that the layout maps to code `c` at level
`L ≤ 3`, the loop body of `handleText` completes, leaves `ret` alone and adds exactly these
press and release events, at any position of any text: `L = 0`: Press c, Release c;
`L = 1`: Press LeftShift, Press c, Release c, Release LeftShift; `L = 2`: Press RightAlt,
Press c, Release c, Release RightAlt; `L = 3`: Press LeftShift, Press RightAlt, Press c,
Release c, Release LeftShift, Release RightAlt. At level 3 the two modifiers are released in
the order of their presses. A text of that one character runs this body once from the empty
trace, and the text `Ab`, with `A` on (30, level 1) and `b` on (48, level 0), gives
Press LeftShift, Press 30, Release 30, Release LeftShift, Press 48, Release 48 and result 0. -/
theorem handleText_direct_sequence (w : KWtype) (xkb : Xkb)
    (stringIdx stringFinalIdx chIdx chFinalIdx : Int) (ch c L : Nat) (s : State)
    (hsym : xkb.utf32ToKeysym ch ≠ XKB_KEY_NoSymbol)
    (hmap : xkb.keycodeFromKeysym (xkb.utf32ToKeysym ch) = some ⟨c, L⟩)
    (hL : L ≤ 3) :
    (∃ s1, handleTextChar w xkb stringIdx stringFinalIdx chIdx chFinalIdx ch s = .ok s1 ∧
      s1.ret = s.ret ∧
      (L = 0 → pressRelease s1.trace = pressRelease s.trace ++
        [Event.Press c, Event.Release c]) ∧
      (L = 1 → pressRelease s1.trace = pressRelease s.trace ++
        [Event.Press KEY_LEFTSHIFT, Event.Press c, Event.Release c,
          Event.Release KEY_LEFTSHIFT]) ∧
      (L = 2 → pressRelease s1.trace = pressRelease s.trace ++
        [Event.Press KEY_RIGHTALT, Event.Press c, Event.Release c,
          Event.Release KEY_RIGHTALT]) ∧
      (L = 3 → pressRelease s1.trace = pressRelease s.trace ++
        [Event.Press KEY_LEFTSHIFT, Event.Press KEY_RIGHTALT, Event.Press c, Event.Release c,
          Event.Release KEY_LEFTSHIFT, Event.Release KEY_RIGHTALT])) ∧
    handleText w xkb [[ch]] = handleTextChar w xkb 0 0 0 0 ch { trace := [], ret := 0 } ∧
    emittedKeys (handleText defaultConfig exampleXkb [[0x41, 0x62]]) =
      some ([Event.Press KEY_LEFTSHIFT, Event.Press 30, Event.Release 30,
        Event.Release KEY_LEFTSHIFT, Event.Press 48, Event.Release 48], 0) := by
  refine ⟨?_, handleText_singleton w xkb ch, by rfl⟩
  interval_cases L <;>
    by_cases hd : w.keyDelay ≠ 0 ∧ (stringIdx ≠ stringFinalIdx ∨ chIdx ≠ chFinalIdx) <;>
    simp [handleTextChar, hsym, hmap, hd, sleep, keyPress, keyRelease, sendKey_ret,
      pressRelease_append, sendKey_pressRelease] <;>
    simp [pressRelease]

theorem handleText_direct_sequence_witness :
    exampleXkb.utf32ToKeysym 0x41 ≠ XKB_KEY_NoSymbol ∧
    exampleXkb.keycodeFromKeysym (exampleXkb.utf32ToKeysym 0x41) = some ⟨30, 1⟩ ∧
    1 ≤ 3 ∧
    ∃ s1, handleTextChar defaultConfig exampleXkb 0 0 0 1 0x41 { trace := [], ret := 0 } =
        .ok s1 ∧
      s1.ret = 0 ∧
      (1 = 0 → pressRelease s1.trace = pressRelease [] ++
        [Event.Press 30, Event.Release 30]) ∧
      (1 = 1 → pressRelease s1.trace = pressRelease [] ++
        [Event.Press KEY_LEFTSHIFT, Event.Press 30, Event.Release 30,
          Event.Release KEY_LEFTSHIFT]) ∧
      (1 = 2 → pressRelease s1.trace = pressRelease [] ++
        [Event.Press KEY_RIGHTALT, Event.Press 30, Event.Release 30,
          Event.Release KEY_RIGHTALT]) ∧
      (1 = 3 → pressRelease s1.trace = pressRelease [] ++
        [Event.Press KEY_LEFTSHIFT, Event.Press KEY_RIGHTALT, Event.Press 30, Event.Release 30,
          Event.Release KEY_LEFTSHIFT, Event.Release KEY_RIGHTALT]) :=
  ⟨by decide, by rfl, by decide,
    (handleText_direct_sequence defaultConfig exampleXkb 0 0 0 1 0x41 30 1
      { trace := [], ret := 0 } (by decide) (by rfl) (by decide)).1⟩

/-- C1 as stated fails at level 3: with `X` mapped to code 45 at level 3, `handleText`
releases LeftShift before RightAlt, not in the reverse order of the presses. -/
theorem handleText_level3_release_order :
    exampleXkb.utf32ToKeysym 0x58 ≠ XKB_KEY_NoSymbol ∧
    exampleXkb.keycodeFromKeysym (exampleXkb.utf32ToKeysym 0x58) = some ⟨45, 3⟩ ∧
    handleText defaultConfig exampleXkb [[0x58]] =
      .ok { trace := [Event.Press KEY_LEFTSHIFT, Event.Press KEY_RIGHTALT, Event.Press 45,
              Event.Flush, Event.Sleep 0, Event.Release 45, Event.Flush,
              Event.Release KEY_LEFTSHIFT, Event.Release KEY_RIGHTALT],
            ret := 0 } ∧
    pressRelease [Event.Press KEY_LEFTSHIFT, Event.Press KEY_RIGHTALT, Event.Press 45,
        Event.Flush, Event.Sleep 0, Event.Release 45, Event.Flush,
        Event.Release KEY_LEFTSHIFT, Event.Release KEY_RIGHTALT] ≠
      [Event.Press KEY_LEFTSHIFT, Event.Press KEY_RIGHTALT, Event.Press 45, Event.Release 45,
        Event.Release KEY_RIGHTALT, Event.Release KEY_LEFTSHIFT] :=
  ⟨by decide, by rfl, by rfl, by decide⟩

/-! ## C2: the compose fallback -/

/-- C2 (amended): for a codepoint with a keysym and no mapping, in a layout that maps every
lowercase hex digit `c` of the codepoint to code `d c` at level 0, the loop body of
`handleText` completes, leaves `ret` alone and adds exactly the press and release events
Press LeftCtrl, Press LeftShift, Press U, Release U, Release LeftCtrl, Release LeftShift,
then Press d, Release d for each digit of `ch_hex`, then Press Space, Release Space. The
digits of U+1F600 are 1, f, 6, 0, 0, and a text of that one character runs this body from
`ret = 0`. -/
theorem handleText_fallback_sequence (w : KWtype) (xkb : Xkb)
    (stringIdx stringFinalIdx chIdx chFinalIdx : Int) (ch : Nat) (d : Char → Nat) (s : State)
    (hsym : xkb.utf32ToKeysym ch ≠ XKB_KEY_NoSymbol)
    (hmap : xkb.keycodeFromKeysym (xkb.utf32ToKeysym ch) = none)
    (hdig : ∀ c ∈ ch_hex ch,
      xkb.keycodeFromKeysym (xkb.utf32ToKeysym c.toNat) = some ⟨d c, 0⟩) :
    (∃ s1, handleTextChar w xkb stringIdx stringFinalIdx chIdx chFinalIdx ch s = .ok s1 ∧
      s1.ret = s.ret ∧
      pressRelease s1.trace = pressRelease s.trace ++
        [Event.Press KEY_LEFTCTRL, Event.Press KEY_LEFTSHIFT, Event.Press KEY_U,
          Event.Release KEY_U, Event.Release KEY_LEFTCTRL, Event.Release KEY_LEFTSHIFT] ++
        (ch_hex ch).flatMap (fun c => [Event.Press (d c), Event.Release (d c)]) ++
        [Event.Press KEY_SPACE, Event.Release KEY_SPACE]) ∧
    ch_hex 0x1F600 = ['1', 'f', '6', '0', '0'] ∧
    handleText w xkb [[ch]] = handleTextChar w xkb 0 0 0 0 ch { trace := [], ret := 0 } := by
  refine ⟨?_, by rfl, handleText_singleton w xkb ch⟩
  obtain ⟨s1, h1, h2, h3⟩ := sendHexDigits_pressRelease w xkb d (fun _ => 0) (ch_hex ch)
    (keyRelease (keyRelease (sendKey w (keyPress (keyPress s KEY_LEFTCTRL) KEY_LEFTSHIFT) KEY_U)
      KEY_LEFTCTRL) KEY_LEFTSHIFT) hdig
  refine ⟨sendKey w s1 KEY_SPACE, ?_, ?_, ?_⟩
  · simp [handleTextChar, hsym, hmap, h1]
  · rw [sendKey_ret, h2]; simp [keyRelease, keyPress, sendKey_ret]
  · rw [sendKey_pressRelease, h3]
    simp [keyRelease, keyPress, pressRelease_append, sendKey_pressRelease]
    simp [pressRelease]

theorem handleText_fallback_sequence_witness :
    exampleXkb.utf32ToKeysym 0x1F600 ≠ XKB_KEY_NoSymbol ∧
    exampleXkb.keycodeFromKeysym (exampleXkb.utf32ToKeysym 0x1F600) = none ∧
    (∃ s1, handleTextChar defaultConfig exampleXkb 0 0 0 0 0x1F600 { trace := [], ret := 0 } =
        .ok s1 ∧
      s1.ret = 0 ∧
      pressRelease s1.trace = pressRelease [] ++
        [Event.Press KEY_LEFTCTRL, Event.Press KEY_LEFTSHIFT, Event.Press KEY_U,
          Event.Release KEY_U, Event.Release KEY_LEFTCTRL, Event.Release KEY_LEFTSHIFT] ++
        (ch_hex 0x1F600).flatMap (fun c =>
          [Event.Press (if c = '1' then 2 else if c = 'f' then 33 else if c = '6' then 7
              else 11),
            Event.Release (if c = '1' then 2 else if c = 'f' then 33 else if c = '6' then 7
              else 11)]) ++
        [Event.Press KEY_SPACE, Event.Release KEY_SPACE]) ∧
    ch_hex 0x1F600 = ['1', 'f', '6', '0', '0'] ∧
    handleText defaultConfig exampleXkb [[0x1F600]] =
      handleTextChar defaultConfig exampleXkb 0 0 0 0 0x1F600 { trace := [], ret := 0 } :=
  ⟨by decide, by rfl,
    handleText_fallback_sequence defaultConfig exampleXkb 0 0 0 0 0x1F600
      (fun c => if c = '1' then 2 else if c = 'f' then 33 else if c = '6' then 7 else 11)
      { trace := [], ret := 0 } (by decide) (by rfl)
      (by
        have h : ch_hex 0x1F600 = ['1', 'f', '6', '0', '0'] := by rfl
        rw [h]
        intro c hc
        simp only [List.mem_cons, List.mem_singleton, List.not_mem_nil, or_false] at hc
        rcases hc with rfl | rfl | rfl | rfl | rfl <;> rfl)⟩

/-- C2 as stated fails: for U+1F600, absent from the example layout whose hex digits are all
at level 0, `handleText` releases LeftCtrl before LeftShift after the U key, while the claim
has Release LeftShift, Release LeftCtrl. The result is 0. -/
theorem handleText_fallback_release_order :
    exampleXkb.utf32ToKeysym 0x1F600 ≠ XKB_KEY_NoSymbol ∧
    exampleXkb.keycodeFromKeysym (exampleXkb.utf32ToKeysym 0x1F600) = none ∧
    emittedKeys (handleText defaultConfig exampleXkb [[0x1F600]]) =
      some ([Event.Press KEY_LEFTCTRL, Event.Press KEY_LEFTSHIFT, Event.Press KEY_U,
          Event.Release KEY_U, Event.Release KEY_LEFTCTRL, Event.Release KEY_LEFTSHIFT,
          Event.Press 2, Event.Release 2, Event.Press 33, Event.Release 33,
          Event.Press 7, Event.Release 7, Event.Press 11, Event.Release 11,
          Event.Press 11, Event.Release 11,
          Event.Press KEY_SPACE, Event.Release KEY_SPACE], 0) ∧
    emittedKeys (handleText defaultConfig exampleXkb [[0x1F600]]) ≠
      some ([Event.Press KEY_LEFTCTRL, Event.Press KEY_LEFTSHIFT, Event.Press KEY_U,
          Event.Release KEY_U, Event.Release KEY_LEFTSHIFT, Event.Release KEY_LEFTCTRL,
          Event.Press 2, Event.Release 2, Event.Press 33, Event.Release 33,
          Event.Press 7, Event.Release 7, Event.Press 11, Event.Release 11,
          Event.Press 11, Event.Release 11,
          Event.Press KEY_SPACE, Event.Release KEY_SPACE], 0) :=
  ⟨by decide, by rfl, by rfl, by
    have h : emittedKeys (handleText defaultConfig exampleXkb [[0x1F600]]) =
      some ([Event.Press KEY_LEFTCTRL, Event.Press KEY_LEFTSHIFT, Event.Press KEY_U,
          Event.Release KEY_U, Event.Release KEY_LEFTCTRL, Event.Release KEY_LEFTSHIFT,
          Event.Press 2, Event.Release 2, Event.Press 33, Event.Release 33,
          Event.Press 7, Event.Release 7, Event.Press 11, Event.Release 11,
          Event.Press 11, Event.Release 11,
          Event.Press KEY_SPACE, Event.Release KEY_SPACE], 0) := by rfl
    rw [h]
    decide⟩

/-! ## Loop rules -/

/-- Rule for the digit loop: a property kept by `sendKey` holds after the loop; a run that
faults is charged to `F`, which must be granted for every unmapped digit. -/
theorem sendHexDigits_outcome (w : KWtype) (xkb : Xkb) (F : Prop) (P : State → Prop)
    (hstep : ∀ s c, P s → P (sendKey w s c)) :
    ∀ (digits : List Char) (s : State),
      (∀ c ∈ digits, digitMapped xkb c = false → F) → P s →
      outcome F P (sendHexDigits w xkb digits s) := by
  intro digits
  induction digits with
  | nil => intro s _ hs; exact hs
  | cons c rest ih =>
    intro s hF hs
    cases hc : xkb.keycodeFromKeysym (xkb.utf32ToKeysym c.toNat) with
    | none =>
      simp only [sendHexDigits, hc, outcome]
      exact hF c (List.mem_cons_self _ _) (by simp [digitMapped, hc])
    | some kc =>
      simp only [sendHexDigits, hc]
      exact ih _ (fun x hx => hF x (List.mem_cons_of_mem _ hx)) (hstep s kc.code hs)

/-- Rule for the inner loop: `R done s` relates the characters handled so far to the state
and is carried over each run of the loop body. -/
theorem handleTextChars_outcome (w : KWtype) (xkb : Xkb) (F : Prop)
    (R : List Nat → State → Prop) (A : Nat → Prop)
    (hstep : ∀ ch, A ch → ∀ (done : List Nat) (s : State) (a b c d : Int), R done s →
      outcome F (R (done ++ [ch])) (handleTextChar w xkb a b c d ch s))
    (a b d : Int) :
    ∀ (chars : List Nat) (c : Int) (done : List Nat) (s : State),
      (∀ ch ∈ chars, A ch) → R done s →
      outcome F (R (done ++ chars)) (handleTextChars w xkb a b d chars c s) := by
  intro chars
  induction chars with
  | nil => intro c done s _ hs; simpa [handleTextChars, outcome] using hs
  | cons ch rest ih =>
    intro c done s hA hs
    have h1 := hstep ch (hA ch (List.mem_cons_self _ _)) done s a b c d hs
    simp only [handleTextChars]
    cases h : handleTextChar w xkb a b c d ch s with
    | error e => rw [h] at h1; exact h1
    | ok s1 =>
      rw [h] at h1
      have h2 := ih (c + 1) (done ++ [ch]) s1 (fun x hx => hA x (List.mem_cons_of_mem _ hx)) h1
      simpa using h2

/-- Rule for the outer loop. -/
theorem handleTextStrings_outcome (w : KWtype) (xkb : Xkb) (F : Prop)
    (R : List Nat → State → Prop) (A : Nat → Prop)
    (hstep : ∀ ch, A ch → ∀ (done : List Nat) (s : State) (a b c d : Int), R done s →
      outcome F (R (done ++ [ch])) (handleTextChar w xkb a b c d ch s))
    (b : Int) :
    ∀ (strings : List (List Nat)) (a : Int) (done : List Nat) (s : State),
      (∀ ch ∈ strings.flatten, A ch) → R done s →
      outcome F (R (done ++ strings.flatten)) (handleTextStrings w xkb b strings a s) := by
  intro strings
  induction strings with
  | nil => intro a done s _ hs; simpa [handleTextStrings, outcome] using hs
  | cons str rest ih =>
    intro a done s hA hs
    have h1 := handleTextChars_outcome w xkb F R A hstep a b ((str.length : Int) - 1) str 0
      done s (fun x hx => hA x (by simp [hx])) hs
    simp only [handleTextStrings]
    cases h : handleTextChars w xkb a b ((str.length : Int) - 1) str 0 s with
    | error e => rw [h] at h1; exact h1
    | ok s1 =>
      rw [h] at h1
      have h2 := ih (a + 1) (done ++ str) s1 (fun x hx => hA x (by simp [hx])) h1
      simpa using h2

/-- Rule for `handleText`: a relation between the characters handled and the state that
holds at the start and is carried over the loop body holds for the whole text. -/
theorem handleText_outcome (w : KWtype) (xkb : Xkb) (F : Prop)
    (R : List Nat → State → Prop) (A : Nat → Prop) (text : List (List Nat))
    (hA : ∀ ch ∈ text.flatten, A ch)
    (hstep : ∀ ch, A ch → ∀ (done : List Nat) (s : State) (a b c d : Int), R done s →
      outcome F (R (done ++ [ch])) (handleTextChar w xkb a b c d ch s))
    (h0 : R [] { trace := [], ret := 0 }) :
    outcome F (R text.flatten) (handleText w xkb text) := by
  have h := handleTextStrings_outcome w xkb F R A hstep ((text.length : Int) - 1) text 0 []
    { trace := [], ret := 0 } hA h0
  simpa [handleText] using h

/-! ## C9: `sendKey` and the flushes -/

/-- With `noFlush` set, the loop body of `handleText` adds no flush to the trace. -/
theorem handleTextChar_noFlush (w : KWtype) (xkb : Xkb) (hf : w.noFlush = true)
    (a b c d : Int) (ch : Nat) (s : State) (hs : Event.Flush ∉ s.trace) :
    outcome True (fun s1 => Event.Flush ∉ s1.trace) (handleTextChar w xkb a b c d ch s) := by
  have hkey : ∀ (t : State) (k : Nat), Event.Flush ∉ t.trace →
      Event.Flush ∉ (sendKey w t k).trace := by
    intro t k ht
    simp [sendKey_trace, hf, ht]
  by_cases h1 : xkb.utf32ToKeysym ch = XKB_KEY_NoSymbol
  · simpa [handleTextChar, h1, outcome] using hs
  · cases hkc : xkb.keycodeFromKeysym (xkb.utf32ToKeysym ch) with
    | none =>
      have h2 := sendHexDigits_outcome w xkb True (fun s1 => Event.Flush ∉ s1.trace) hkey
        (ch_hex ch) (keyRelease (keyRelease (sendKey w
          (keyPress (keyPress s KEY_LEFTCTRL) KEY_LEFTSHIFT) KEY_U) KEY_LEFTCTRL) KEY_LEFTSHIFT)
        (fun _ _ _ => trivial) (by simp [keyRelease, keyPress, sendKey_trace, hf, hs])
      simp only [handleTextChar, h1, hkc, if_false]
      revert h2
      cases sendHexDigits w xkb (ch_hex ch) (keyRelease (keyRelease (sendKey w
          (keyPress (keyPress s KEY_LEFTCTRL) KEY_LEFTSHIFT) KEY_U) KEY_LEFTCTRL) KEY_LEFTSHIFT) with
      | error e => intro _; trivial
      | ok s1 => intro h2; exact hkey _ _ h2
    | some kc =>
      obtain ⟨code, level⟩ := kc
      by_cases hd : w.keyDelay ≠ 0 ∧ (a ≠ b ∨ c ≠ d) <;>
        rcases level with _ | _ | _ | _ | n <;>
        simp [handleTextChar, h1, hkc, hd, outcome, sleep, keyRelease, keyPress, sendKey_trace,
          hf, hs]

/-- C9: `sendKey` adds exactly Press(code), Flush, Sleep(keyHold), Release(code), Flush to
the trace when `noFlush` is false and exactly Press(code), Sleep(keyHold), Release(code) when
`noFlush` is true; and with `noFlush` set, no run of `handleText` contains a flush. -/
theorem sendKey_sequence (w : KWtype) (s : State) (keyCode : Nat) :
    (w.noFlush = false → (sendKey w s keyCode).trace = s.trace ++
      [Event.Press keyCode, Event.Flush, Event.Sleep w.keyHold, Event.Release keyCode,
        Event.Flush]) ∧
    (w.noFlush = true → (sendKey w s keyCode).trace = s.trace ++
      [Event.Press keyCode, Event.Sleep w.keyHold, Event.Release keyCode]) ∧
    (w.noFlush = true → ∀ (xkb : Xkb) (text : List (List Nat)) (s1 : State),
      handleText w xkb text = .ok s1 → Event.Flush ∉ s1.trace) := by
  refine ⟨fun hf => by simp [sendKey_trace, hf], fun hf => by simp [sendKey_trace, hf], ?_⟩
  intro hf xkb text s1 h
  have h1 := handleText_outcome w xkb True (fun _ t => Event.Flush ∉ t.trace) (fun _ => True)
    text (fun _ _ => trivial)
    (fun ch _ _ s a b c d hs => handleTextChar_noFlush w xkb hf a b c d ch s hs) (by simp)
  rw [h] at h1
  exact h1

theorem sendKey_sequence_witness :
    (sendKey defaultConfig { trace := [], ret := 0 } 30).trace =
      [] ++ [Event.Press 30, Event.Flush, Event.Sleep 0, Event.Release 30, Event.Flush] ∧
    (sendKey { noFlush := true, keyDelay := 0, keyHold := 5 } { trace := [], ret := 0 } 30).trace =
      [] ++ [Event.Press 30, Event.Sleep 5, Event.Release 30] ∧
    Event.Flush ∉ [Event.Press KEY_LEFTSHIFT, Event.Press 30, Event.Sleep 5, Event.Release 30,
      Event.Release KEY_LEFTSHIFT] :=
  ⟨(sendKey_sequence defaultConfig { trace := [], ret := 0 } 30).1 rfl,
    (sendKey_sequence { noFlush := true, keyDelay := 0, keyHold := 5 } { trace := [], ret := 0 }
      30).2.1 rfl,
    (sendKey_sequence { noFlush := true, keyDelay := 0, keyHold := 5 } { trace := [], ret := 0 }
      30).2.2 rfl exampleXkb [[0x41]]
      { trace := [Event.Press KEY_LEFTSHIFT, Event.Press 30, Event.Sleep 5, Event.Release 30,
          Event.Release KEY_LEFTSHIFT],
        ret := 0 } (by rfl)⟩

/-! ## C10: the unchecked digit mapping -/

theorem digitChar_mem_hexDigitChars (n : Nat) (h : n < 16) :
    Nat.digitChar n ∈ hexDigitChars := by
  interval_cases n <;> decide

theorem toDigitsCore_mem_hexDigitChars :
    ∀ (fuel n : Nat) (ds : List Char), (∀ c ∈ ds, c ∈ hexDigitChars) →
      ∀ c ∈ Nat.toDigitsCore 16 fuel n ds, c ∈ hexDigitChars := by
  intro fuel
  induction fuel with
  | zero => intro n ds h c hc; exact h c (by simpa [Nat.toDigitsCore] using hc)
  | succ fuel ih =>
    intro n ds h c hc
    have hd : ∀ x ∈ Nat.digitChar (n % 16) :: ds, x ∈ hexDigitChars := by
      intro x hx
      rcases List.mem_cons.mp hx with rfl | hx
      · exact digitChar_mem_hexDigitChars _ (Nat.mod_lt _ (by norm_num))
      · exact h x hx
    simp only [Nat.toDigitsCore] at hc
    split_ifs at hc
    · exact hd c hc
    · exact ih _ _ hd c hc

/-- Every character of `ch_hex` is one of the sixteen lowercase hexadecimal digits. -/
theorem ch_hex_mem_hexDigitChars (ch : Nat) : ∀ c ∈ ch_hex ch, c ∈ hexDigitChars :=
  toDigitsCore_mem_hexDigitChars _ _ [] (by simp)

/-- C10: in a layout where each of the sixteen characters 0-9, a-f has a keysym and a
mapping, `handleText` completes on every text, so the code of an absent mapping is never read.
The precondition is needed: U+1F600 is absent from the layout `noFXkb`, which also lacks a
mapping for its hex digit f, and there `handleText` reads the code of the absent mapping. -/
theorem handleText_completes_of_digits_mapped (w : KWtype) (xkb : Xkb)
    (text : List (List Nat))
    (hdig : ∀ c ∈ hexDigitChars, xkb.utf32ToKeysym c.toNat ≠ XKB_KEY_NoSymbol ∧
      (xkb.keycodeFromKeysym (xkb.utf32ToKeysym c.toNat)).isSome = true) :
    (∃ s, handleText w xkb text = .ok s) ∧
    (noFXkb.utf32ToKeysym 0x1F600 ≠ XKB_KEY_NoSymbol ∧
      noFXkb.keycodeFromKeysym (noFXkb.utf32ToKeysym 0x1F600) = none ∧
      'f' ∈ ch_hex 0x1F600 ∧
      noFXkb.keycodeFromKeysym (noFXkb.utf32ToKeysym 'f'.toNat) = none ∧
      handleText w noFXkb [[0x1F600]] = .error Fault.absentMappingAccess) := by
  constructor
  · have h := handleText_outcome w xkb False (fun _ _ => True) (fun _ => True) text
      (fun _ _ => trivial) ?_ trivial
    · revert h
      cases handleText w xkb text with
      | error e => intro h; exact h.elim
      | ok s => intro _; exact ⟨s, rfl⟩
    · intro ch _ _ s a b c d _
      by_cases h1 : xkb.utf32ToKeysym ch = XKB_KEY_NoSymbol
      · simp [handleTextChar, h1, outcome]
      · cases hkc : xkb.keycodeFromKeysym (xkb.utf32ToKeysym ch) with
        | none =>
          have h2 := sendHexDigits_outcome w xkb False (fun _ => True) (fun _ _ _ => trivial)
            (ch_hex ch) (keyRelease (keyRelease (sendKey w
              (keyPress (keyPress s KEY_LEFTCTRL) KEY_LEFTSHIFT) KEY_U) KEY_LEFTCTRL)
              KEY_LEFTSHIFT)
            (fun x hx hm => by
              have := (hdig x (ch_hex_mem_hexDigitChars ch x hx)).2
              simp [digitMapped, this] at hm) trivial
          simp only [handleTextChar, h1, hkc, if_false]
          revert h2
          cases sendHexDigits w xkb (ch_hex ch) (keyRelease (keyRelease (sendKey w
              (keyPress (keyPress s KEY_LEFTCTRL) KEY_LEFTSHIFT) KEY_U) KEY_LEFTCTRL)
              KEY_LEFTSHIFT) with
          | error e => intro h2; exact h2
          | ok s1 => intro _; trivial
        | some kc => simp [handleTextChar, h1, hkc, outcome]
  · exact ⟨by decide, by rfl, by decide, by rfl, by rfl⟩

theorem handleText_completes_of_digits_mapped_witness :
    (∀ c ∈ hexDigitChars, exampleXkb.utf32ToKeysym c.toNat ≠ XKB_KEY_NoSymbol ∧
      (exampleXkb.keycodeFromKeysym (exampleXkb.utf32ToKeysym c.toNat)).isSome = true) ∧
    (∃ s, handleText defaultConfig exampleXkb [[0x1F600, 0x62], [0x7E]] = .ok s) ∧
    (noFXkb.utf32ToKeysym 0x1F600 ≠ XKB_KEY_NoSymbol ∧
      noFXkb.keycodeFromKeysym (noFXkb.utf32ToKeysym 0x1F600) = none ∧
      'f' ∈ ch_hex 0x1F600 ∧
      noFXkb.keycodeFromKeysym (noFXkb.utf32ToKeysym 'f'.toNat) = none ∧
      handleText defaultConfig noFXkb [[0x1F600]] = .error Fault.absentMappingAccess) :=
  ⟨by decide,
    handleText_completes_of_digits_mapped defaultConfig exampleXkb [[0x1F600, 0x62], [0x7E]]
      (by decide)⟩

/-! ## C3: the returned status -/

theorem failsResolution_iff (xkb : Xkb) (ch : Nat) :
    failsResolution xkb ch = true ↔
      (xkb.utf32ToKeysym ch = XKB_KEY_NoSymbol ∨
        ∃ kc, xkb.keycodeFromKeysym (xkb.utf32ToKeysym ch) = some kc ∧ 4 ≤ kc.level) := by
  unfold failsResolution
  cases h : xkb.keycodeFromKeysym (xkb.utf32ToKeysym ch) <;> simp

/-- The loop body sets `ret` to 2 for a character that fails resolution and leaves it alone
otherwise; it completes when the digits needed by the character are mapped. -/
theorem handleTextChar_ret (w : KWtype) (xkb : Xkb) (a b c d : Int) (ch : Nat) (s : State)
    (hA : takesFallback xkb ch = true → ∀ x ∈ ch_hex ch, digitMapped xkb x = true) :
    outcome False (fun s1 => s1.ret = if failsResolution xkb ch = true then 2 else s.ret)
      (handleTextChar w xkb a b c d ch s) := by
  by_cases h1 : xkb.utf32ToKeysym ch = XKB_KEY_NoSymbol
  · simp [handleTextChar, h1, outcome, failsResolution]
  · cases hkc : xkb.keycodeFromKeysym (xkb.utf32ToKeysym ch) with
    | none =>
      have hfb : takesFallback xkb ch = true := by simp [takesFallback, h1, hkc]
      have h2 := sendHexDigits_outcome w xkb False (fun t => t.ret = s.ret)
        (fun t k ht => by simpa [sendKey_ret] using ht)
        (ch_hex ch) (keyRelease (keyRelease (sendKey w
          (keyPress (keyPress s KEY_LEFTCTRL) KEY_LEFTSHIFT) KEY_U) KEY_LEFTCTRL)
          KEY_LEFTSHIFT)
        (fun x hx hm => by simp [hA hfb x hx] at hm)
        (by simp [keyRelease, keyPress, sendKey_ret])
      simp only [handleTextChar, h1, hkc, if_false]
      revert h2
      cases sendHexDigits w xkb (ch_hex ch) (keyRelease (keyRelease (sendKey w
          (keyPress (keyPress s KEY_LEFTCTRL) KEY_LEFTSHIFT) KEY_U) KEY_LEFTCTRL)
          KEY_LEFTSHIFT) with
      | error e => intro h2; exact h2
      | ok s1 =>
        intro h2
        simp only [outcome] at h2 ⊢
        simp [sendKey_ret, h2, failsResolution, h1, hkc]
    | some kc =>
      obtain ⟨code, level⟩ := kc
      by_cases hd : w.keyDelay ≠ 0 ∧ (a ≠ b ∨ c ≠ d) <;>
        rcases level with _ | _ | _ | _ | n <;>
        simp [handleTextChar, h1, hkc, hd, outcome, sleep, keyRelease, keyPress, sendKey_ret,
          failsResolution]

/-- C3: for every text and every layout in which the hex digits needed by the fallback are
mapped, `handleText` completes and returns 2 if and only if at least one character of the text
has no keysym or is mapped at a level of 4 or more, and returns 0 otherwise (whatever the
number of characters typed through the fallback); the result is never another value. -/
theorem handleText_result (w : KWtype) (xkb : Xkb) (text : List (List Nat))
    (hhex : hexDigitsMapped xkb text) :
    ∃ s, handleText w xkb text = .ok s ∧
      (s.ret = 2 ↔ ∃ ch ∈ text.flatten, xkb.utf32ToKeysym ch = XKB_KEY_NoSymbol ∨
        ∃ kc, xkb.keycodeFromKeysym (xkb.utf32ToKeysym ch) = some kc ∧ 4 ≤ kc.level) ∧
      (s.ret = 0 ↔ ¬ ∃ ch ∈ text.flatten, xkb.utf32ToKeysym ch = XKB_KEY_NoSymbol ∨
        ∃ kc, xkb.keycodeFromKeysym (xkb.utf32ToKeysym ch) = some kc ∧ 4 ≤ kc.level) ∧
      (s.ret = 0 ∨ s.ret = 2) := by
  have h := handleText_outcome w xkb False
    (fun done s => s.ret = if done.any (failsResolution xkb) = true then 2 else 0)
    (fun ch => takesFallback xkb ch = true → ∀ x ∈ ch_hex ch, digitMapped xkb x = true)
    text hhex
    (fun ch hA done s a b c d hs => by
      have h1 := handleTextChar_ret w xkb a b c d ch s hA
      revert h1
      cases handleTextChar w xkb a b c d ch s with
      | error e => intro h1; exact h1
      | ok s1 =>
        intro h1
        simp only [outcome] at h1 ⊢
        rw [h1, hs]
        cases hf : failsResolution xkb ch <;> simp [hf])
    (by simp)
  revert h
  cases handleText w xkb text with
  | error e => intro h; exact h.elim
  | ok s =>
    intro h
    simp only [outcome] at h
    have hany : text.flatten.any (failsResolution xkb) = true ↔
        ∃ ch ∈ text.flatten, xkb.utf32ToKeysym ch = XKB_KEY_NoSymbol ∨
          ∃ kc, xkb.keycodeFromKeysym (xkb.utf32ToKeysym ch) = some kc ∧ 4 ≤ kc.level := by
      rw [List.any_eq_true]
      exact exists_congr fun ch => and_congr_right fun _ => failsResolution_iff xkb ch
    refine ⟨s, rfl, ?_, ?_, ?_⟩
    · rw [← hany, h]; split_ifs with hc <;> simp [hc]
    · rw [← hany, h]; split_ifs with hc <;> simp [hc]
    · rw [h]; split_ifs <;> simp

theorem handleText_result_witness :
    hexDigitsMapped exampleXkb [[0x61, 0x1F600], [0x7E]] ∧
    ∃ s, handleText defaultConfig exampleXkb [[0x61, 0x1F600], [0x7E]] = .ok s ∧
      (s.ret = 2 ↔ ∃ ch ∈ [[0x61, 0x1F600], [0x7E]].flatten,
        exampleXkb.utf32ToKeysym ch = XKB_KEY_NoSymbol ∨
        ∃ kc, exampleXkb.keycodeFromKeysym (exampleXkb.utf32ToKeysym ch) = some kc ∧
          4 ≤ kc.level) ∧
      (s.ret = 0 ↔ ¬ ∃ ch ∈ [[0x61, 0x1F600], [0x7E]].flatten,
        exampleXkb.utf32ToKeysym ch = XKB_KEY_NoSymbol ∨
        ∃ kc, exampleXkb.keycodeFromKeysym (exampleXkb.utf32ToKeysym ch) = some kc ∧
          4 ≤ kc.level) ∧
      (s.ret = 0 ∨ s.ret = 2) :=
  ⟨by unfold hexDigitsMapped; decide,
    handleText_result defaultConfig exampleXkb [[0x61, 0x1F600], [0x7E]]
      (by unfold hexDigitsMapped; decide)⟩

/-! ## Frame rules: the events added do not depend on the state at the start -/

theorem sendKey_eq (w : KWtype) (s : State) (keyCode : Nat) :
    sendKey w s keyCode =
      { trace := s.trace ++ (if w.noFlush then
          [Event.Press keyCode, Event.Sleep w.keyHold, Event.Release keyCode]
        else
          [Event.Press keyCode, Event.Flush, Event.Sleep w.keyHold, Event.Release keyCode,
            Event.Flush]),
        ret := s.ret } := by
  cases hf : w.noFlush <;> simp [sendKey, keyPress, keyRelease, flush, sleep, hf]

theorem sendHexDigits_frame (w : KWtype) (xkb : Xkb) :
    ∀ (digits : List Char) (s : State),
      sendHexDigits w xkb digits s =
        match sendHexDigits w xkb digits { trace := [], ret := 0 } with
        | .error e => .error e
        | .ok t => .ok { trace := s.trace ++ t.trace, ret := s.ret } := by
  intro digits
  induction digits with
  | nil => intro s; simp [sendHexDigits]
  | cons c rest ih =>
    intro s
    cases hc : xkb.keycodeFromKeysym (xkb.utf32ToKeysym c.toNat) with
    | none => simp [sendHexDigits, hc]
    | some kc =>
      simp only [sendHexDigits, hc]
      rw [ih (sendKey w s kc.code), ih (sendKey w { trace := [], ret := 0 } kc.code)]
      cases sendHexDigits w xkb rest { trace := [], ret := 0 } with
      | error e => rfl
      | ok t => simp [sendKey_eq]

/-- The loop body run from any state adds to the trace what it emits from the empty trace,
and sets `ret` to 2 exactly for a character that fails resolution. -/
theorem handleTextChar_frame (w : KWtype) (xkb : Xkb) (a b c d : Int) (ch : Nat) (s : State) :
    handleTextChar w xkb a b c d ch s =
      match handleTextChar w xkb a b c d ch { trace := [], ret := 0 } with
      | .error e => .error e
      | .ok t => .ok { trace := s.trace ++ t.trace,
                       ret := if failsResolution xkb ch = true then 2 else s.ret } := by
  by_cases h1 : xkb.utf32ToKeysym ch = XKB_KEY_NoSymbol
  · simp [handleTextChar, h1, failsResolution]
  · cases hkc : xkb.keycodeFromKeysym (xkb.utf32ToKeysym ch) with
    | none =>
      simp only [handleTextChar, h1, hkc, if_false]
      rw [sendHexDigits_frame w xkb (ch_hex ch) (keyRelease _ _),
        sendHexDigits_frame w xkb (ch_hex ch) (keyRelease
          (keyRelease (sendKey w (keyPress (keyPress { trace := [], ret := 0 } KEY_LEFTCTRL)
            KEY_LEFTSHIFT) KEY_U) KEY_LEFTCTRL) KEY_LEFTSHIFT)]
      cases sendHexDigits w xkb (ch_hex ch) { trace := [], ret := 0 } with
      | error e => rfl
      | ok t => simp [sendKey_eq, keyRelease, keyPress, failsResolution, h1, hkc]
    | some kc =>
      obtain ⟨code, level⟩ := kc
      by_cases hd : w.keyDelay ≠ 0 ∧ (a ≠ b ∨ c ≠ d) <;>
        rcases level with _ | _ | _ | _ | n <;>
        simp [handleTextChar, h1, hkc, hd, sleep, keyRelease, keyPress, sendKey_eq,
          failsResolution]

/-! ## C4: no key stays held between characters -/

theorem pairDepth_append (k : Nat) :
    ∀ (a b : List Event) (n : Nat),
      pairDepth k n (a ++ b) = (pairDepth k n a).bind (fun m => pairDepth k m b) := by
  intro a
  induction a with
  | nil => intro b n; simp [pairDepth]
  | cons e rest ih =>
    intro b n
    cases e with
    | Press c => simp only [List.cons_append, pairDepth]; exact ih b _
    | Release c =>
      simp only [List.cons_append, pairDepth]
      split_ifs
      · rfl
      · exact ih b _
      · exact ih b _
    | Flush => simp only [List.cons_append, pairDepth]; exact ih b _
    | Sleep ms => simp only [List.cons_append, pairDepth]; exact ih b _

theorem Neutral_nil : Neutral [] := fun _ _ => rfl

theorem Neutral_append {a b : List Event} (ha : Neutral a) (hb : Neutral b) :
    Neutral (a ++ b) := by
  intro k n
  rw [pairDepth_append, ha k n]
  exact hb k n

theorem Paired_append_Neutral {a b : List Event} (ha : Paired a) (hb : Neutral b) :
    Paired (a ++ b) := by
  intro k
  rw [pairDepth_append, ha k]
  exact hb k 0

theorem Neutral_sendKey (w : KWtype) (keyCode : Nat) :
    Neutral (if w.noFlush then
        [Event.Press keyCode, Event.Sleep w.keyHold, Event.Release keyCode]
      else
        [Event.Press keyCode, Event.Flush, Event.Sleep w.keyHold, Event.Release keyCode,
          Event.Flush]) := by
  intro k n
  cases w.noFlush <;> by_cases h : keyCode = k <;> simp [pairDepth, h]

/-- Two modifiers pressed around a neutral block and released in the order of the presses. -/
theorem Neutral_bracket2 (m1 m2 : Nat) {a : List Event} (ha : Neutral a) :
    Neutral (Event.Press m1 :: Event.Press m2 :: (a ++ [Event.Release m1, Event.Release m2])) := by
  intro k n
  simp only [pairDepth, pairDepth_append, ha k _, Option.bind_some]
  by_cases h1 : m1 = k <;> by_cases h2 : m2 = k <;> simp [h1, h2]

/-- One modifier pressed around a neutral block. -/
theorem Neutral_bracket1 (m1 : Nat) {a : List Event} (ha : Neutral a) :
    Neutral (Event.Press m1 :: (a ++ [Event.Release m1])) := by
  intro k n
  simp only [pairDepth, pairDepth_append, ha k _, Option.bind_some]
  by_cases h1 : m1 = k <;> simp [h1]

theorem Neutral_sleep (ms : Nat) {a : List Event} (ha : Neutral a) :
    Neutral (a ++ [Event.Sleep ms]) :=
  Neutral_append ha (fun _ _ => rfl)

theorem heldAfter_append :
    ∀ (a b : List Event) (held : List Nat),
      heldAfter held (a ++ b) = heldAfter (heldAfter held a) b := by
  intro a
  induction a with
  | nil => intro b held; rfl
  | cons e rest ih =>
    intro b held
    cases e <;> simp only [List.cons_append, heldAfter] <;> exact ih b _

/-- A key that is held after a block whose pairing succeeds has an open press left. -/
theorem pairDepth_pos_of_held (k : Nat) :
    ∀ (tr : List Event) (n m : Nat) (held : List Nat),
      pairDepth k n tr = some m → (k ∈ held → 0 < n) → k ∈ heldAfter held tr → 0 < m := by
  intro tr
  induction tr with
  | nil =>
    intro n m held h hn hk
    simp only [pairDepth, Option.some.injEq] at h
    subst h
    exact hn hk
  | cons e rest ih =>
    intro n m held h hn hk
    cases e with
    | Press c =>
      simp only [pairDepth, heldAfter] at h hk
      refine ih _ m _ h ?_ hk
      intro hmem
      by_cases hc : c = k
      · simp [hc]
      · have : k ∈ held := by
          split_ifs at hmem with h1
          · exact hmem
          · rcases List.mem_cons.mp hmem with h2 | h2
            · exact absurd h2.symm hc
            · exact h2
        simpa [hc] using hn this
    | Release c =>
      simp only [pairDepth, heldAfter] at h hk
      by_cases hc : c = k
      · simp only [hc, if_true] at h
        split_ifs at h with h0
        refine ih _ m _ h ?_ hk
        intro hmem
        simp [hc] at hmem
      · simp only [hc, if_false] at h
        refine ih _ m _ h ?_ hk
        intro hmem
        exact hn (List.mem_filter.mp hmem).1
    | Flush =>
      simp only [pairDepth, heldAfter] at h hk
      exact ih _ m _ h hn hk
    | Sleep ms =>
      simp only [pairDepth, heldAfter] at h hk
      exact ih _ m _ h hn hk

/-- After a trace in which every press is paired with a later release, no key is held. -/
theorem heldKeys_eq_nil_of_Paired {tr : List Event} (h : Paired tr) : heldKeys tr = [] := by
  rw [List.eq_nil_iff_forall_not_mem]
  intro k hk
  have := pairDepth_pos_of_held k tr 0 0 [] (h k) (by simp) hk
  exact absurd this (by decide)

theorem Paired_of_Neutral {tr : List Event} (h : Neutral tr) : Paired tr :=
  fun k => h k 0

/-- The events of one run of the loop body, started from the empty trace, form a neutral
block; the run completes when the digits needed by the character are mapped. -/
theorem handleTextChar_neutral (w : KWtype) (xkb : Xkb) (a b c d : Int) (ch : Nat)
    (hA : takesFallback xkb ch = true → ∀ x ∈ ch_hex ch, digitMapped xkb x = true) :
    outcome False (fun t => Neutral t.trace)
      (handleTextChar w xkb a b c d ch { trace := [], ret := 0 }) := by
  by_cases h1 : xkb.utf32ToKeysym ch = XKB_KEY_NoSymbol
  · simpa [handleTextChar, h1, outcome] using Neutral_nil
  · cases hkc : xkb.keycodeFromKeysym (xkb.utf32ToKeysym ch) with
    | none =>
      have hfb : takesFallback xkb ch = true := by simp [takesFallback, h1, hkc]
      have hkey : ∀ (t : State) (k : Nat), Neutral t.trace → Neutral (sendKey w t k).trace := by
        intro t k ht
        rw [sendKey_eq]
        exact Neutral_append ht (Neutral_sendKey w k)
      have h2 := sendHexDigits_outcome w xkb False (fun t => Neutral t.trace) hkey
        (ch_hex ch) (keyRelease (keyRelease (sendKey w
          (keyPress (keyPress { trace := [], ret := 0 } KEY_LEFTCTRL) KEY_LEFTSHIFT) KEY_U)
          KEY_LEFTCTRL) KEY_LEFTSHIFT)
        (fun x hx hm => by simp [hA hfb x hx] at hm)
        (by
          simp only [keyRelease, keyPress, sendKey_eq, List.nil_append, List.append_assoc,
            List.cons_append, List.singleton_append]
          exact Neutral_bracket2 _ _ (Neutral_sendKey w KEY_U))
      simp only [handleTextChar, h1, hkc, if_false]
      revert h2
      cases sendHexDigits w xkb (ch_hex ch) (keyRelease (keyRelease (sendKey w
          (keyPress (keyPress { trace := [], ret := 0 } KEY_LEFTCTRL) KEY_LEFTSHIFT) KEY_U)
          KEY_LEFTCTRL) KEY_LEFTSHIFT) with
      | error e => intro h2; exact h2
      | ok s1 => intro h2; exact hkey _ _ h2
    | some kc =>
      obtain ⟨code, level⟩ := kc
      have hk := Neutral_sendKey w code
      have hdelay : ∀ (t : State), Neutral t.trace →
          Neutral (if w.keyDelay ≠ 0 ∧ (a ≠ b ∨ c ≠ d) then sleep t w.keyDelay else t).trace := by
        intro t ht
        split_ifs
        · exact Neutral_sleep _ ht
        · exact ht
      rcases level with _ | _ | _ | _ | n <;>
        simp only [handleTextChar, h1, hkc, if_false, outcome] <;>
        apply hdelay <;>
        simp only [keyRelease, keyPress, sendKey_eq, List.nil_append, List.append_assoc,
          List.cons_append, List.singleton_append]
      · exact hk
      · exact Neutral_bracket1 _ hk
      · exact Neutral_bracket1 _ hk
      · exact Neutral_bracket2 _ _ hk
      · exact Neutral_nil

/-- C4: for every text and every layout in which the hex digits needed by the fallback are
mapped, `handleText` completes, every press of its trace is paired with exactly one later
release of the same code, and no key is held at the end; and for each character of the text,
at any position and from any state, the loop body completes and the block of events it adds is
itself paired with no key held after it, so that a state with no key held is followed by a
state with no key held. -/
theorem handleText_keys_paired (w : KWtype) (xkb : Xkb) (text : List (List Nat))
    (hhex : hexDigitsMapped xkb text) :
    (∃ s, handleText w xkb text = .ok s ∧ Paired s.trace ∧ heldKeys s.trace = []) ∧
    (∀ ch ∈ text.flatten, ∀ (a b c d : Int) (s : State),
      ∃ s1 E, handleTextChar w xkb a b c d ch s = .ok s1 ∧ s1.trace = s.trace ++ E ∧
        Paired E ∧ heldKeys E = [] ∧ (heldKeys s.trace = [] → heldKeys s1.trace = [])) := by
  have hchar : ∀ ch ∈ text.flatten, ∀ (a b c d : Int) (s : State),
      ∃ s1 E, handleTextChar w xkb a b c d ch s = .ok s1 ∧ s1.trace = s.trace ++ E ∧
        Neutral E := by
    intro ch hch a b c d s
    have h1 := handleTextChar_neutral w xkb a b c d ch (hhex ch hch)
    have h2 := handleTextChar_frame w xkb a b c d ch s
    revert h1 h2
    cases handleTextChar w xkb a b c d ch { trace := [], ret := 0 } with
    | error e => intro h1; exact h1.elim
    | ok t => intro h1 h2; exact ⟨_, t.trace, h2, rfl, h1⟩
  constructor
  · have h := handleText_outcome w xkb False (fun _ s => Paired s.trace)
      (fun ch => ch ∈ text.flatten) text (fun _ h => h)
      (fun ch hch done s a b c d hs => by
        obtain ⟨s1, E, h1, h2, h3⟩ := hchar ch hch a b c d s
        rw [h1]
        simp only [outcome, h2]
        exact Paired_append_Neutral hs h3)
      (fun _ => rfl)
    revert h
    cases handleText w xkb text with
    | error e => intro h; exact h.elim
    | ok s => intro h; exact ⟨s, rfl, h, heldKeys_eq_nil_of_Paired h⟩
  · intro ch hch a b c d s
    obtain ⟨s1, E, h1, h2, h3⟩ := hchar ch hch a b c d s
    have hE : heldKeys E = [] := heldKeys_eq_nil_of_Paired (Paired_of_Neutral h3)
    refine ⟨s1, E, h1, h2, Paired_of_Neutral h3, hE, ?_⟩
    intro hs
    unfold heldKeys at hs hE ⊢
    rw [h2, heldAfter_append, hs, hE]

theorem handleText_keys_paired_witness :
    hexDigitsMapped exampleXkb [[0x41, 0x1F600], [0x58]] ∧
    ∃ s, handleText defaultConfig exampleXkb [[0x41, 0x1F600], [0x58]] = .ok s ∧
      Paired s.trace ∧ heldKeys s.trace = [] :=
  ⟨by unfold hexDigitsMapped; decide,
    (handleText_keys_paired defaultConfig exampleXkb [[0x41, 0x1F600], [0x58]]
      (by unfold hexDigitsMapped; decide)).1⟩

/-! ## C7: characters that fail resolution -/

/-- The loop body adds no press, release or flush for a character that fails resolution,
and sets `ret` to 2. -/
theorem handleTextChar_failed (w : KWtype) (xkb : Xkb) (a b c d : Int) (ch : Nat) (s : State)
    (hf : failsResolution xkb ch = true) :
    ∃ s1, handleTextChar w xkb a b c d ch s = .ok s1 ∧ keyEvents s1.trace = keyEvents s.trace ∧
      s1.ret = 2 := by
  by_cases h1 : xkb.utf32ToKeysym ch = XKB_KEY_NoSymbol
  · exact ⟨{ s with ret := 2 }, by simp [handleTextChar, h1], rfl, rfl⟩
  · cases hkc : xkb.keycodeFromKeysym (xkb.utf32ToKeysym ch) with
    | none => simp [failsResolution, h1, hkc] at hf
    | some kc =>
      obtain ⟨code, level⟩ := kc
      have hl : 4 ≤ level := by simpa [failsResolution, h1, hkc] using hf
      obtain ⟨n, rfl⟩ : ∃ n, level = n + 4 := ⟨level - 4, by omega⟩
      by_cases hd : w.keyDelay ≠ 0 ∧ (a ≠ b ∨ c ≠ d) <;>
        simp [handleTextChar, h1, hkc, hd, sleep, keyEvents]

/-- The press, release and flush events of the loop body are those of the character typed
alone, after those of the state at the start. -/
theorem handleTextChar_runKeys (w : KWtype) (xkb : Xkb) (a b c d : Int) (ch : Nat)
    (s : State) :
    runKeys (handleTextChar w xkb a b c d ch s) =
      match runKeys (handleText w xkb [[ch]]) with
      | .error e => .error e
      | .ok evs => .ok (keyEvents s.trace ++ evs) := by
  rw [handleText_singleton, handleTextChar_frame w xkb a b c d ch s]
  by_cases h1 : xkb.utf32ToKeysym ch = XKB_KEY_NoSymbol
  · simp [handleTextChar, h1, runKeys, keyEvents]
  · cases hkc : xkb.keycodeFromKeysym (xkb.utf32ToKeysym ch) with
    | none =>
      simp only [handleTextChar, h1, hkc, if_false]
      cases sendHexDigits w xkb (ch_hex ch) (keyRelease (keyRelease (sendKey w
          (keyPress (keyPress { trace := [], ret := 0 } KEY_LEFTCTRL) KEY_LEFTSHIFT) KEY_U)
          KEY_LEFTCTRL) KEY_LEFTSHIFT) with
      | error e => rfl
      | ok t => simp [runKeys, keyEvents_append]
    | some kc =>
      obtain ⟨code, level⟩ := kc
      by_cases hd : w.keyDelay ≠ 0 ∧ (a ≠ b ∨ c ≠ d) <;>
        rcases level with _ | _ | _ | _ | n <;>
        simp [handleTextChar, h1, hkc, hd, sleep, runKeys, keyEvents_append] <;>
        simp [keyEvents]

theorem concatKeys_append (f : Nat → Except Fault (List Event)) :
    ∀ (l1 l2 : List Nat),
      concatKeys f (l1 ++ l2) =
        match concatKeys f l1 with
        | .error e => .error e
        | .ok evs =>
          match concatKeys f l2 with
          | .error e => .error e
          | .ok more => .ok (evs ++ more) := by
  intro l1
  induction l1 with
  | nil => intro l2; simp only [List.nil_append, concatKeys]; cases concatKeys f l2 <;> simp
  | cons ch rest ih =>
    intro l2
    rw [List.cons_append]
    simp only [concatKeys]
    rw [ih l2]
    cases f ch <;> cases concatKeys f rest <;> cases concatKeys f l2 <;> simp

theorem concatKeys_filter (f : Nat → Except Fault (List Event)) (p : Nat → Bool)
    (h : ∀ ch, p ch = false → f ch = .ok []) :
    ∀ l : List Nat, concatKeys f (l.filter p) = concatKeys f l := by
  intro l
  induction l with
  | nil => rfl
  | cons ch rest ih =>
    cases hp : p ch
    · rw [List.filter_cons_of_neg (by simp [hp]), ih]
      simp only [concatKeys, h ch hp]
      cases concatKeys f rest <;> simp
    · simp [List.filter_cons, hp, concatKeys, ih]

theorem handleTextChars_runKeys (w : KWtype) (xkb : Xkb) (a b d : Int) :
    ∀ (chars : List Nat) (c : Int) (s : State),
      runKeys (handleTextChars w xkb a b d chars c s) =
        match concatKeys (fun ch => runKeys (handleText w xkb [[ch]])) chars with
        | .error e => .error e
        | .ok evs => .ok (keyEvents s.trace ++ evs) := by
  intro chars
  induction chars with
  | nil => intro c s; simp [handleTextChars, concatKeys, runKeys]
  | cons ch rest ih =>
    intro c s
    have h1 := handleTextChar_runKeys w xkb a b c d ch s
    simp only [handleTextChars, concatKeys]
    revert h1
    cases handleTextChar w xkb a b c d ch s with
    | error e =>
      cases runKeys (handleText w xkb [[ch]]) with
      | error e1 => intro h1; simp [runKeys] at h1 ⊢; try exact h1
      | ok evs => intro h1; simp [runKeys] at h1
    | ok s1 =>
      cases runKeys (handleText w xkb [[ch]]) with
      | error e1 => intro h1; simp [runKeys] at h1
      | ok evs =>
        intro h1
        simp only [runKeys, Except.ok.injEq] at h1
        simp only [ih (c + 1) s1, h1]
        cases concatKeys (fun ch => runKeys (handleText w xkb [[ch]])) rest <;> simp

theorem handleTextStrings_runKeys (w : KWtype) (xkb : Xkb) (b : Int) :
    ∀ (strings : List (List Nat)) (a : Int) (s : State),
      runKeys (handleTextStrings w xkb b strings a s) =
        match concatKeys (fun ch => runKeys (handleText w xkb [[ch]])) strings.flatten with
        | .error e => .error e
        | .ok evs => .ok (keyEvents s.trace ++ evs) := by
  intro strings
  induction strings with
  | nil => intro a s; simp [handleTextStrings, concatKeys, runKeys]
  | cons str rest ih =>
    intro a s
    have h1 := handleTextChars_runKeys w xkb a b ((str.length : Int) - 1) str 0 s
    simp only [handleTextStrings, List.flatten_cons, concatKeys_append]
    revert h1
    cases handleTextChars w xkb a b ((str.length : Int) - 1) str 0 s with
    | error e =>
      cases concatKeys (fun ch => runKeys (handleText w xkb [[ch]])) str with
      | error e1 => intro h1; simp [runKeys] at h1 ⊢; try exact h1
      | ok evs => intro h1; simp [runKeys] at h1
    | ok s1 =>
      cases concatKeys (fun ch => runKeys (handleText w xkb [[ch]])) str with
      | error e1 => intro h1; simp [runKeys] at h1
      | ok evs =>
        intro h1
        simp only [runKeys, Except.ok.injEq] at h1
        simp only [ih (a + 1) s1, h1]
        cases concatKeys (fun ch => runKeys (handleText w xkb [[ch]])) rest.flatten <;> simp

/-- C7: a character that fails resolution (no keysym, or a keysym mapped at a level of 4 or
more) adds no press, release or flush to the trace and sets `ret` to 2, and does not halt
`handleText`: the press, release and flush events of the whole text are exactly those of the
remaining characters, each typed alone, one after the other in the order of the text (and the
run faults exactly when one of these does). For the text `a€`, where `€` has no keysym, the
events are those of `a` and the result is 2. -/
theorem handleText_skips_failed (w : KWtype) (xkb : Xkb) (text : List (List Nat)) :
    (∀ ch, failsResolution xkb ch = true → ∀ (a b c d : Int) (s : State),
      ∃ s1, handleTextChar w xkb a b c d ch s = .ok s1 ∧
        keyEvents s1.trace = keyEvents s.trace ∧ s1.ret = 2) ∧
    runKeys (handleText w xkb text) =
      concatKeys (fun ch => runKeys (handleText w xkb [[ch]]))
        (text.flatten.filter (fun ch => !failsResolution xkb ch)) ∧
    handleText defaultConfig exampleXkb [[0x61, 0x20AC]] =
      .ok { trace := [Event.Press 30, Event.Flush, Event.Sleep 0, Event.Release 30,
              Event.Flush],
            ret := 2 } ∧
    handleText defaultConfig exampleXkb [[0x61]] =
      .ok { trace := [Event.Press 30, Event.Flush, Event.Sleep 0, Event.Release 30,
              Event.Flush],
            ret := 0 } := by
  refine ⟨fun ch hf a b c d s => handleTextChar_failed w xkb a b c d ch s hf, ?_, by rfl,
    by rfl⟩
  rw [concatKeys_filter]
  · have h := handleTextStrings_runKeys w xkb ((text.length : Int) - 1) text 0
      { trace := [], ret := 0 }
    have h0 : handleText w xkb text =
        handleTextStrings w xkb ((text.length : Int) - 1) text 0 { trace := [], ret := 0 } := rfl
    rw [h0, h]
    cases concatKeys (fun ch => runKeys (handleText w xkb [[ch]])) text.flatten <;>
      simp [keyEvents]
  · intro ch hch
    have hf : failsResolution xkb ch = true := by simpa using hch
    obtain ⟨s1, h1, h2, _⟩ := handleTextChar_failed w xkb 0 0 0 0 ch { trace := [], ret := 0 } hf
    rw [handleText_singleton, h1]
    simp only [runKeys, h2]
    rfl

theorem handleText_skips_failed_witness :
    failsResolution exampleXkb 0x7E = true ∧
    ∃ s1, handleTextChar defaultConfig exampleXkb 0 1 0 0 0x7E
        { trace := [Event.Press 30, Event.Release 30], ret := 0 } = .ok s1 ∧
      keyEvents s1.trace = keyEvents [Event.Press 30, Event.Release 30] ∧ s1.ret = 2 :=
  ⟨by decide,
    (handleText_skips_failed defaultConfig exampleXkb []).1 0x7E (by decide) 0 1 0 0
      { trace := [Event.Press 30, Event.Release 30], ret := 0 }⟩

/-! ## C5, C6: the delay between characters -/

/-- C5 (the code departs from the claim): with `keyDelay = 50`, the text `ab` has one sleep
of 50 ms between the events of `a` and those of `b`; with `a` replaced by U+1F600, which is
absent from the layout and typed through the fallback, `handleText` makes no sleep of 50 ms
between the Space that ends the fallback and the events of `b`. -/
theorem handleText_no_delay_after_fallback :
    handleText delay50Config exampleXkb [[0x61, 0x62]] =
      .ok { trace := [Event.Press 30, Event.Flush, Event.Sleep 0, Event.Release 30, Event.Flush,
              Event.Sleep 50,
              Event.Press 48, Event.Flush, Event.Sleep 0, Event.Release 48, Event.Flush],
            ret := 0 } ∧
    exampleXkb.keycodeFromKeysym (exampleXkb.utf32ToKeysym 0x1F600) = none ∧
    handleText delay50Config exampleXkb [[0x1F600, 0x62]] =
      .ok { trace := [Event.Press KEY_LEFTCTRL, Event.Press KEY_LEFTSHIFT,
              Event.Press KEY_U, Event.Flush, Event.Sleep 0, Event.Release KEY_U, Event.Flush,
              Event.Release KEY_LEFTCTRL, Event.Release KEY_LEFTSHIFT,
              Event.Press 2, Event.Flush, Event.Sleep 0, Event.Release 2, Event.Flush,
              Event.Press 33, Event.Flush, Event.Sleep 0, Event.Release 33, Event.Flush,
              Event.Press 7, Event.Flush, Event.Sleep 0, Event.Release 7, Event.Flush,
              Event.Press 11, Event.Flush, Event.Sleep 0, Event.Release 11, Event.Flush,
              Event.Press 11, Event.Flush, Event.Sleep 0, Event.Release 11, Event.Flush,
              Event.Press KEY_SPACE, Event.Flush, Event.Sleep 0, Event.Release KEY_SPACE,
              Event.Flush,
              Event.Press 48, Event.Flush, Event.Sleep 0, Event.Release 48, Event.Flush],
            ret := 0 } :=
  ⟨by rfl, by rfl, by rfl⟩

/-- C6 (the code departs from the claim): with `keyDelay = 50` and the two strings `ab` and
the empty string, `handleText` sleeps 50 ms after the events of `b`, the last character of the
whole input: `b` is the last character of its string, but its string is not the last. -/
theorem handleText_trailing_delay_before_empty_string :
    handleText delay50Config exampleXkb [[0x61, 0x62], []] =
      .ok { trace := [Event.Press 30, Event.Flush, Event.Sleep 0, Event.Release 30, Event.Flush,
              Event.Sleep 50,
              Event.Press 48, Event.Flush, Event.Sleep 0, Event.Release 48, Event.Flush,
              Event.Sleep 50],
            ret := 0 } := by
  rfl

/-! ## C8: the level of a hex digit in the fallback -/

/-- C8 (the code departs from the claim): in the layout `shiftedDigitXkb`, which maps the
digit 1 to code 2 at level 1, the fallback for U+1F600 types the digit 1 as a bare Press 2,
Release 2, with no LeftShift around it. -/
theorem handleText_fallback_digit_level_ignored :
    shiftedDigitXkb.keycodeFromKeysym (shiftedDigitXkb.utf32ToKeysym 0x1F600) = none ∧
    shiftedDigitXkb.keycodeFromKeysym (shiftedDigitXkb.utf32ToKeysym '1'.toNat) =
      some ⟨2, 1⟩ ∧
    emittedKeys (handleText defaultConfig shiftedDigitXkb [[0x1F600]]) =
      some ([Event.Press KEY_LEFTCTRL, Event.Press KEY_LEFTSHIFT, Event.Press KEY_U,
          Event.Release KEY_U, Event.Release KEY_LEFTCTRL, Event.Release KEY_LEFTSHIFT,
          Event.Press 2, Event.Release 2, Event.Press 33, Event.Release 33,
          Event.Press 7, Event.Release 7, Event.Press 11, Event.Release 11,
          Event.Press 11, Event.Release 11,
          Event.Press KEY_SPACE, Event.Release KEY_SPACE], 0) :=
  ⟨by rfl, by rfl, by rfl⟩

end Kwtype
